import Mathlib

/-!
Shallow embedding of the SIM800C AT-command driver (src/sim800c.py and
src/read_sms.py).  Strings are modelled as `List Char`; Python's `str.strip`,
`str.split`, substring tests (`in`) and `int()` parsing are modelled
explicitly.  Timing (sleeps, timeouts, the capture loop's quiescence window)
is not modelled: the response accumulated by the capture loop is taken as an
arbitrary list of non-blank stripped lines, and the serial port's behaviour
is an oracle parameter where a component depends on it.
-/

/-- Strings of the modelled program: lists of characters. -/
abbrev Str := List Char

/-- ASCII whitespace, the characters removed by Python's `str.strip()`
(the driver only ever handles ASCII protocol text). -/
def isSpace (c : Char) : Bool :=
  c = ' ' || c = '\t' || c = '\n' || c = '\r' || c = '\x0b' || c = '\x0c'

/-- Python `s.strip()`: remove leading and trailing whitespace. -/
def pyStrip (s : Str) : Str :=
  ((s.dropWhile isSpace).reverse.dropWhile isSpace).reverse

/-- Python `s.strip('"')`: remove leading and trailing double quotes. -/
def stripQuotes (s : Str) : Str :=
  ((s.dropWhile (fun c => c = '"')).reverse.dropWhile (fun c => c = '"')).reverse

/-- Boolean list-prefix test (first argument is the candidate start). -/
def isPrefixB : Str → Str → Bool
  | [], _ => true
  | _ :: _, [] => false
  | a :: as, b :: bs => a == b && isPrefixB as bs

/-- Python `needle in hay`: substring containment. -/
def containsSub (needle : Str) : Str → Bool
  | [] => isPrefixB needle []
  | c :: cs => isPrefixB needle (c :: cs) || containsSub needle cs

/-- Python `'\n'.join(lines)`. -/
def joinLines : List Str → Str
  | [] => []
  | [l] => l
  | l :: ls => l ++ '\n' :: joinLines ls

/-- The literal `'AT'` filtered by `send_at_command`'s data filter. -/
def atEcho : Str := ['A', 'T']

/-- The success terminal token `'OK'`. -/
def okTok : Str := ['O', 'K']

/-- The failure terminal token `'ERROR'`. -/
def errTok : Str := ['E', 'R', 'R', 'O', 'R']

/-- The `dict` returned by `send_at_command`: `{'success': ..., 'data': ...}`. -/
structure TransResult where
  success : Bool
  data : Str
deriving DecidableEq

/-- `sim800c.py` line 187:
`data_lines = [line for line in response_lines if line not in ['AT', 'OK', 'ERROR']]`. -/
def dataLines (response_lines : List Str) : List Str :=
  response_lines.filter (fun l => !(l == atEcho || l == okTok || l == errTok))

/-- `send_at_command` (sim800c.py lines 126-194), with the capture loop
abstracted: `response_lines` is the list of non-blank stripped lines the loop
accumulated before terminating.  If the port is not open the function returns
failure with empty data without any I/O; otherwise
`success = 'OK' in '\n'.join(response_lines)` and
`data = '\n'.join(data_lines)` (lines 187-192). -/
def send_at_command (command : Str) (is_open : Bool) (response_lines : List Str) :
    TransResult :=
  if is_open = false then ⟨false, []⟩
  else ⟨containsSub okTok (joinLines response_lines), joinLines (dataLines response_lines)⟩

/-- Python `int(tok)` digit loop (base 10), including CPython's rule that a
single underscore may separate two digits.  `acc` is the value of the digits
consumed so far. -/
def pyDigitsGo : Nat → Str → Option Nat
  | acc, [] => some acc
  | acc, c :: cs =>
    if c.isDigit then pyDigitsGo (10 * acc + (c.toNat - 48)) cs
    else if c = '_' then
      match cs with
      | [] => none
      | c2 :: cs2 => if c2.isDigit then pyDigitsGo (10 * acc + (c2.toNat - 48)) cs2 else none
    else none

/-- Nonempty base-10 digit run, as accepted by Python `int`. -/
def pyIntDigits : Str → Option Nat
  | [] => none
  | c :: cs => if c.isDigit then pyDigitsGo (c.toNat - 48) cs else none

/-- Python `int(s)` for a whitespace-free token: optional sign, then digits;
`none` models the `ValueError` branch. -/
def pyInt (s : Str) : Option Int :=
  match s with
  | '+' :: rest => (pyIntDigits rest).map (fun n => (n : Int))
  | '-' :: rest => (pyIntDigits rest).map (fun n => -(n : Int))
  | _ => (pyIntDigits s).map (fun n => (n : Int))

/-- Split a string at the leftmost occurrence of `sep`, returning the parts
before and after it; `none` when `sep` does not occur. -/
def splitFirst (sep : Str) : Str → Option (Str × Str)
  | [] => none
  | c :: cs =>
    if isPrefixB sep (c :: cs) then some ([], (c :: cs).drop sep.length)
    else
      match splitFirst sep cs with
      | some (pre, post) => some (c :: pre, post)
      | none => none

/-- Helper for Python `s.split()` (no separator argument): `cur` is the
current token accumulated in reverse. -/
def wsSplitAux : Str → Str → List Str
  | cur, [] => if cur = [] then [] else [cur.reverse]
  | cur, c :: cs =>
    if isSpace c then (if cur = [] then wsSplitAux [] cs else cur.reverse :: wsSplitAux [] cs)
    else wsSplitAux (c :: cur) cs

/-- Python `s.split()`: split on whitespace runs, dropping empty tokens. -/
def wsSplit (s : Str) : List Str := wsSplitAux [] s

/-- `parse_response_value` (sim800c.py lines 196-213):
`data.split(prefix)[1]` is the text between the first occurrence of the
prefix and its next occurrence (or the end of the data); its first
whitespace-delimited token is parsed as a base-10 integer.  Any
`ValueError`/`IndexError` (and Python's `ValueError` on an empty separator)
yields `None`. -/
def parse_response_value (data pfx : Str) : Option Int :=
  if containsSub pfx data = true then
    if pfx = [] then none
    else
      match splitFirst pfx data with
      | none => none
      | some (_, rest1) =>
        let seg := match splitFirst pfx rest1 with
                   | some (pre, _) => pre
                   | none => rest1
        match wsSplit (pyStrip seg) with
        | [] => none
        | tok :: _ => pyInt tok
  else none

/-- Outcome of one reconciliation call: the returned boolean together with
the list of AT commands that were sent, in order (so that "the corrective
command is never sent" is expressible). -/
structure ReconcileOutcome where
  ok : Bool
  sent : List Str
deriving DecidableEq

/-- `check_and_set_status` (sim800c.py lines 215-265), the numeric
reconciliation.  `send` is the modem oracle: the `TransResult` produced by
`send_at_command` for each command.  Logging and the power settle delay are
not modelled (they do not affect the result or the commands sent). -/
def check_and_set_status (send : Str → TransResult) (query_cmd pfx : Str)
    (expected_value : Int) (set_cmd : Str) : ReconcileOutcome :=
  let result := send query_cmd
  if result.success = false then ⟨false, [query_cmd]⟩
  else
    match parse_response_value result.data pfx with
    | none => ⟨false, [query_cmd]⟩
    | some current_value =>
      if current_value = expected_value then ⟨true, [query_cmd]⟩
      else
        let set_result := send set_cmd
        ⟨set_result.success, [query_cmd, set_cmd]⟩

/-- `check_and_set_text_status` (sim800c.py lines 267-321), the textual
reconciliation.  `set_cmd_func` models the lazily-called corrective-command
supplier by the command it would yield (`none` = Python `None`).  The code
checks `ready_value in result['data']` on the filtered data of the query
transaction. -/
def check_and_set_text_status (send : Str → TransResult) (query_cmd ready_value : Str)
    (set_cmd_func : Option Str) : ReconcileOutcome :=
  let result := send query_cmd
  if result.success = false then ⟨false, [query_cmd]⟩
  else if containsSub ready_value result.data then ⟨true, [query_cmd]⟩
  else
    match set_cmd_func with
    | none => ⟨false, [query_cmd]⟩
    | some set_cmd =>
      let set_result := send set_cmd
      ⟨set_result.success, [query_cmd, set_cmd]⟩

/-- State of `self.ser`: the pyserial handle's baud rate and open flag
(`none` models `self.ser is None`). -/
structure SerHandle where
  baud : Nat
  is_open : Bool
deriving DecidableEq

/-- Oracle for the physical side of baud detection: whether
`serial.Serial(...)` at a given baud rate succeeds (otherwise it raises),
and whether the `AT` liveness probe transaction at that baud rate reports
success. -/
structure ModemEnv where
  openOk : Nat → Bool
  probeOk : Nat → Bool

/-- Python `if self.ser and self.ser.is_open: self.ser.close()`. -/
def closeIfOpen : Option SerHandle → Option SerHandle
  | none => none
  | some h => some { h with is_open := false }

/-- The link is closed: either no handle or an unopened one. -/
def serClosed : Option SerHandle → Bool
  | none => true
  | some h => !h.is_open

/-- `common_baudrates` (sim800c.py line 88). -/
def common_baudrates : List Nat := [115200, 9600, 19200, 38400, 57600]

/-- One iteration of `detect_baudrate`'s candidate loop (sim800c.py lines
91-121): close any open handle, try to reopen at the candidate rate (an
exception closes any open handle and moves on), probe with `AT`; on probe
failure the new handle is closed.  Returns (found, resulting handle). -/
def detectStep (env : ModemEnv) (ser : Option SerHandle) (b : Nat) :
    Bool × Option SerHandle :=
  let ser1 := closeIfOpen ser
  if env.openOk b then
    if env.probeOk b then (true, some ⟨b, true⟩)
    else (false, some ⟨b, false⟩)
  else (false, closeIfOpen ser1)

/-- The candidate loop of `detect_baudrate` over a list of rates. -/
def detectLoop (env : ModemEnv) : Option SerHandle → List Nat → Bool × Option SerHandle
  | ser, [] => (false, ser)
  | ser, b :: bs =>
    let r := detectStep env ser b
    if r.1 then r else detectLoop env r.2 bs

/-- `detect_baudrate` (sim800c.py lines 86-124): scan `common_baudrates`;
the timeout bookkeeping on success is not modelled. -/
def detect_baudrate (env : ModemEnv) (ser : Option SerHandle) :
    Bool × Option SerHandle :=
  detectLoop env ser common_baudrates

/-- One parsed SMS entry, as the `dict` built in `parse_sms_messages`
(read_sms.py lines 116-122). -/
structure SmsRecord where
  index : Str
  status : Str
  sender : Str
  timestamp : Str
  content : Str
deriving DecidableEq

/-- The list-response marker `'+CMGL:'`. -/
def cmglMarker : Str := ['+', 'C', 'M', 'G', 'L', ':']

/-- State of the quote-aware header tokenizer (read_sms.py lines 77-79):
the fields emitted so far, the field being accumulated, and the in-quotes
flag. -/
structure SplitState where
  parts : List Str
  current_part : Str
  in_quotes : Bool
deriving DecidableEq

/-- One character of the tokenizer loop (read_sms.py lines 81-90): `"`
toggles the flag and is retained; `,` outside quotes emits the current
field (stripped) if it is non-empty; anything else is accumulated. -/
def splitStep (st : SplitState) (c : Char) : SplitState :=
  if c = '"' then ⟨st.parts, st.current_part ++ [c], !st.in_quotes⟩
  else if c = ',' ∧ st.in_quotes = false then
    ⟨if st.current_part = [] then st.parts else st.parts ++ [pyStrip st.current_part],
     [], st.in_quotes⟩
  else ⟨st.parts, st.current_part ++ [c], st.in_quotes⟩

/-- The trailing `if current_part: parts.append(current_part.strip())`
(read_sms.py lines 93-94). -/
def emitCur (ps : List Str) (cur : Str) : List Str :=
  if cur = [] then ps else ps ++ [pyStrip cur]

/-- Finish the tokenizer: flush the final field. -/
def finishSplit (st : SplitState) : List Str := emitCur st.parts st.current_part

/-- The whole quote-aware split of a header (after the `'+CMGL:'` marker has
been removed and the remainder stripped). -/
def splitHeader (header : Str) : List Str :=
  finishSplit (header.foldl splitStep ⟨[], [], false⟩)

/-- Record construction (read_sms.py lines 96-122): field 0 restripped, the
next three restripped and quote-stripped; `content` is supplied by the
caller (the stripped following line, or empty at end of input). -/
def mkRecord (parts : List Str) (content : Str) : SmsRecord :=
  { index := pyStrip (parts.getD 0 [])
    status := stripQuotes (pyStrip (parts.getD 1 []))
    sender := stripQuotes (pyStrip (parts.getD 2 []))
    timestamp := stripQuotes (pyStrip (parts.getD 3 []))
    content := content }

/-- The line loop of `parse_sms_messages` (read_sms.py lines 63-149): a
stripped line starting with the marker is tokenized; with at least 4 fields
a record is built from the stripped following line (empty when the header is
the last line) and the loop advances two lines, otherwise (or for any other
line) it advances one line. -/
def parseLines : List Str → List SmsRecord
  | [] => []
  | l :: rest =>
    let line := pyStrip l
    if isPrefixB cmglMarker line = true then
      let parts := splitHeader (pyStrip (line.drop cmglMarker.length))
      if 4 ≤ parts.length then
        match rest with
        | [] => [mkRecord parts []]
        | c :: rest2 => mkRecord parts (pyStrip c) :: parseLines rest2
      else parseLines rest
    else parseLines rest

/-- Python `data.split('\n')` (keeps empty pieces). -/
def splitOnNl : Str → List Str
  | [] => [[]]
  | c :: cs =>
    if c = '\n' then [] :: splitOnNl cs
    else
      match splitOnNl cs with
      | [] => [[c]]
      | l :: ls => (c :: l) :: ls

/-- `parse_sms_messages` (read_sms.py lines 47-151). -/
def parse_sms_messages (data : Str) : List SmsRecord :=
  parseLines (splitOnNl data)

/-- The hexadecimal digit characters tested by read_sms.py line 131. -/
def hexDigitChars : Str :=
  ['0', '1', '2', '3', '4', '5', '6', '7', '8', '9',
   'A', 'B', 'C', 'D', 'E', 'F', 'a', 'b', 'c', 'd', 'e', 'f']

/-- Python `c in '0123456789ABCDEFabcdef'`. -/
def isHexDigitPy (c : Char) : Bool := hexDigitChars.contains c

/-- The guard of the opportunistic decode (read_sms.py line 131):
`message_content and len(message_content) % 2 == 0 and all(c in ... )`. -/
def hexGuard (content : Str) : Bool :=
  !content.isEmpty && content.length % 2 == 0 && content.all isHexDigitPy

/-- Numeric value of a hex digit character. -/
def hexVal (c : Char) : Nat :=
  if c.isDigit then c.toNat - 48
  else if 'a' ≤ c ∧ c ≤ 'f' then c.toNat - 87
  else if 'A' ≤ c ∧ c ≤ 'F' then c.toNat - 55
  else 0

/-- Python `bytes.fromhex` on an even-length all-hex string. -/
def hexToBytes : Str → List Nat
  | [] => []
  | [_] => []
  | a :: b :: rest => (16 * hexVal a + hexVal b) :: hexToBytes rest

/-- Pair up bytes into big-endian 16-bit code units; an odd byte count is a
decoding error (`none`), as in `bytes.decode('utf-16-be')`. -/
def bytesToUnits : List Nat → Option (List Nat)
  | [] => some []
  | [_] => none
  | hi :: lo :: rest => (bytesToUnits rest).map (fun us => (256 * hi + lo) :: us)

/-- Strict UTF-16 decoding of code units to code points: a high surrogate
must be followed by a low surrogate, a lone low surrogate is an error. -/
def utf16Decode : List Nat → Option (List Nat)
  | [] => some []
  | u :: rest =>
    if 0xD800 ≤ u ∧ u ≤ 0xDBFF then
      match rest with
      | [] => none
      | v :: rest2 =>
        if 0xDC00 ≤ v ∧ v ≤ 0xDFFF then
          (utf16Decode rest2).map (fun cs => (0x10000 + (u - 0xD800) * 0x400 + (v - 0xDC00)) :: cs)
        else none
    else if 0xDC00 ≤ u ∧ u ≤ 0xDFFF then none
    else (utf16Decode rest).map (fun cs => u :: cs)

/-- Code points back to characters (all outputs of `utf16Decode` are valid
scalar values). -/
def codePointsToStr (cs : List Nat) : Str := cs.map Char.ofNat

/-- The display-only opportunistic decode (read_sms.py lines 128-139):
attempted only when `hexGuard` holds; any decoding failure falls back to the
raw text.  This value is only printed, never stored in the record. -/
def tryDecodeDisplay (content : Str) : Str :=
  if hexGuard content then
    match bytesToUnits (hexToBytes content) with
    | none => content
    | some units =>
      match utf16Decode units with
      | none => content
      | some cps => codePointsToStr cps
  else content

/-- A field wrapped in double quotes, as the modem emits status, sender and
timestamp fields. -/
def quoteField (t : Str) : Str := '"' :: t ++ ['"']

/-- Comma-join of raw header fields (inverse image of the tokenizer). -/
def joinComma : List Str → Str
  | [] => []
  | [f] => f
  | f :: fs => f ++ ',' :: joinComma fs

/-- A full `+CMGL:` header line carrying the given raw fields. -/
def mkHeaderLine (fields : List Str) : Str := cmglMarker ++ ' ' :: joinComma fields

/-- What the tokenizer produces from a list of raw fields: empty raw fields
are dropped, the rest are stripped. -/
def fieldsOut (fields : List Str) : List Str :=
  (fields.filter (fun f => !f.isEmpty)).map pyStrip

/-- `fieldOk q f`: scanning `f` from quote-parity `q`, no comma is ever met
outside quotes, so the tokenizer accumulates all of `f` into one field. -/
def fieldOk : Bool → Str → Bool
  | _, [] => true
  | q, c :: cs =>
    if c = '"' then fieldOk (!q) cs
    else if c = ',' ∧ q = false then false
    else fieldOk q cs

/-- Quote parity after scanning a string from parity `q`. -/
def parityAfter : Bool → Str → Bool
  | q, [] => q
  | q, c :: cs => parityAfter (if c = '"' then !q else q) cs

/-- Merge a pending partial field into the head of a field list. -/
def curCons (cur : Str) : List Str → List Str
  | [] => [cur]
  | f :: fs => (cur ++ f) :: fs

/-- The first character (if any) is not whitespace. -/
def headNotSpace : Str → Bool
  | [] => true
  | c :: _ => !isSpace c

/-- The last character (if any) is not whitespace. -/
def lastNotSpace (s : Str) : Bool := headNotSpace s.reverse

lemma containsSub_nil_needle (s : Str) : containsSub [] s = true := by
  cases s <;> simp [containsSub, isPrefixB]

lemma isPrefixB_append_nlStr (n : Str) (hn : ∀ ch ∈ n, ch ≠ '\n') :
    ∀ (a b : Str), isPrefixB n (a ++ '\n' :: b) = isPrefixB n a := by
  induction n with
  | nil => intro a b; rfl
  | cons c n' ih =>
    intro a b
    have hc : c ≠ '\n' := hn c (by simp)
    cases a with
    | nil => simp [isPrefixB, hc]
    | cons d a' =>
      simp only [List.cons_append, isPrefixB, List.append_eq]
      rw [ih (fun ch hch => hn ch (List.mem_cons_of_mem c hch)) a' b]

lemma containsSub_append_nl (n : Str) (hn : ∀ ch ∈ n, ch ≠ '\n') (a b : Str) :
    containsSub n (a ++ '\n' :: b) = (containsSub n a || containsSub n b) := by
  induction a with
  | nil =>
    cases n with
    | nil => simp [containsSub_nil_needle]
    | cons c n' =>
      have hc : c ≠ '\n' := hn c (by simp)
      simp [containsSub, isPrefixB, hc]
  | cons d a' ih =>
    simp only [List.cons_append, containsSub, List.append_eq]
    rw [show d :: (a' ++ '\n' :: b) = (d :: a') ++ '\n' :: b from rfl,
        isPrefixB_append_nlStr n hn (d :: a') b, ih]
    simp [Bool.or_assoc]

lemma containsSub_joinLines (n : Str) (hne : n ≠ []) (hn : ∀ ch ∈ n, ch ≠ '\n')
    (lines : List Str) :
    containsSub n (joinLines lines) = lines.any (containsSub n) := by
  induction lines with
  | nil =>
    cases n with
    | nil => exact absurd rfl hne
    | cons c n' => simp [joinLines, containsSub, isPrefixB]
  | cons l ls ih =>
    cases ls with
    | nil => simp [joinLines]
    | cons l2 ls2 =>
      rw [show joinLines (l :: l2 :: ls2) = l ++ '\n' :: joinLines (l2 :: ls2) from rfl,
          containsSub_append_nl n hn, ih]
      simp

/-- Claim C1 (counterexample): for the command `ATI` with the raw captured
response `['ATI', 'OK']` (the modem's echo followed by the terminal token),
the transaction reports success, yet `data` is exactly the literal echo of
the command that was sent — the filter at sim800c.py line 187 removes only
the literal `'AT'`, not the echo of an arbitrary command. -/
theorem c1_counterexample :
    (send_at_command ("ATI".data) true [("ATI".data), ("OK".data)]).success = true
      ∧ (send_at_command ("ATI".data) true [("ATI".data), ("OK".data)]).data = "ATI".data := by
  decide

/-- Claim C1 (amended): for every transaction, `data` is the raw captured
lines with every line equal to the literal `'AT'`, `'OK'` or `'ERROR'`
removed, rejoined with newlines; hence no bare `OK`/`ERROR` line and no bare
`AT` line survives, and the command's own echo is removed only when the
command is the literal `'AT'` (for other commands the echo may remain in
`data`). -/
theorem c1_amended_filter (command : Str) (response_lines : List Str) :
    (send_at_command command true response_lines).data = joinLines (dataLines response_lines)
      ∧ ∀ l ∈ dataLines response_lines, l ≠ atEcho ∧ l ≠ okTok ∧ l ≠ errTok := by
  constructor
  · simp [send_at_command]
  · intro l hl
    simp only [dataLines, List.mem_filter, Bool.not_eq_true', Bool.or_eq_false_iff,
      beq_eq_false_iff_ne, ne_eq] at hl
    exact ⟨hl.2.1.1, hl.2.1.2, hl.2.2⟩

theorem c1_amended_filter_witness :
    ("SIM800".data) ≠ atEcho ∧ ("SIM800".data) ≠ okTok ∧ ("SIM800".data) ≠ errTok :=
  (c1_amended_filter ("ATI".data) [("SIM800".data), ("OK".data)]).2 ("SIM800".data) (by decide)

/-- Claim C2: for every call to `send_at_command` on an open port, the
`success` flag is true iff the token `'OK'` occurs in some raw accumulated
response line — computed on the unfiltered lines, and with no reference to
whether `'ERROR'` also occurs anywhere. -/
theorem c2_success_iff_ok_token (command : Str) (response_lines : List Str) :
    (send_at_command command true response_lines).success = true
      ↔ ∃ l ∈ response_lines, containsSub okTok l = true := by
  have h := containsSub_joinLines okTok (by decide) (by decide) response_lines
  simp only [send_at_command, if_neg (by simp : ¬(true = false))]
  rw [h, List.any_eq_true]

/-- Claim C6: in numeric reconciliation, when the query transaction succeeds
and the integer extracted after the prefix equals the expected value, the
function returns true and only the query command was ever sent — the
corrective command is never issued. -/
theorem c6_numeric_already_correct (send : Str → TransResult) (query_cmd pfx set_cmd : Str)
    (expected_value : Int)
    (h1 : (send query_cmd).success = true)
    (h2 : parse_response_value (send query_cmd).data pfx = some expected_value) :
    check_and_set_status send query_cmd pfx expected_value set_cmd = ⟨true, [query_cmd]⟩ := by
  simp [check_and_set_status, h1, h2]

theorem c6_numeric_already_correct_witness :
    check_and_set_status
      (fun c => if c = ("AT+CFUN?".data) then ⟨true, ("+CFUN: 1".data)⟩ else ⟨true, []⟩)
      ("AT+CFUN?".data) ("+CFUN:".data) 1 ("AT+CFUN=1".data)
      = ⟨true, [("AT+CFUN?".data)]⟩ :=
  c6_numeric_already_correct _ _ _ _ _ (by decide) (by decide)

/-- Claim C7: in textual reconciliation, when the query succeeds, the ready
literal is absent from the reply data, and the corrective-command supplier
yields no command, the function returns false and only the query command was
sent. -/
theorem c7_text_no_corrective (send : Str → TransResult) (query_cmd ready_value : Str)
    (h1 : (send query_cmd).success = true)
    (h2 : containsSub ready_value (send query_cmd).data = false) :
    check_and_set_text_status send query_cmd ready_value none = ⟨false, [query_cmd]⟩ := by
  simp [check_and_set_text_status, h1, h2]

theorem c7_text_no_corrective_witness :
    check_and_set_text_status
      (fun c => if c = ("AT+CPIN?".data) then ⟨true, ("+CPIN: SIM PIN".data)⟩ else ⟨true, []⟩)
      ("AT+CPIN?".data) ("READY".data) none
      = ⟨false, [("AT+CPIN?".data)]⟩ :=
  c7_text_no_corrective _ _ _ (by decide) (by decide)

lemma serClosed_closeIfOpen (ser : Option SerHandle) : serClosed (closeIfOpen ser) = true := by
  cases ser <;> simp [closeIfOpen, serClosed]

lemma detectStep_fail_closed (env : ModemEnv) (ser : Option SerHandle) (b : Nat)
    (h : env.openOk b = false ∨ env.probeOk b = false) :
    (detectStep env ser b).1 = false ∧ serClosed (detectStep env ser b).2 = true := by
  by_cases ho : env.openOk b = true
  · have hp : env.probeOk b = false := by
      rcases h with h | h
      · rw [ho] at h; exact absurd h (by simp)
      · exact h
    simp [detectStep, ho, hp, serClosed]
  · simp only [Bool.not_eq_true] at ho
    simp [detectStep, ho, serClosed_closeIfOpen]

lemma detectLoop_fail (env : ModemEnv) :
    ∀ (bs : List Nat) (ser : Option SerHandle),
    (∀ b ∈ bs, env.openOk b = false ∨ env.probeOk b = false) →
    serClosed ser = true →
    (detectLoop env ser bs).1 = false ∧ serClosed (detectLoop env ser bs).2 = true := by
  intro bs
  induction bs with
  | nil => intro ser _ hc; exact ⟨rfl, hc⟩
  | cons b bs ih =>
    intro ser h hc
    have hst := detectStep_fail_closed env ser b (h b (by simp))
    simp only [detectLoop]
    rw [if_neg (by rw [hst.1]; simp)]
    exact ih (detectStep env ser b).2 (fun b2 hb2 => h b2 (List.mem_cons_of_mem b hb2)) hst.2

lemma detectLoop_cons_fail (env : ModemEnv) (ser : Option SerHandle) (b : Nat) (bs : List Nat)
    (h : (detectStep env ser b).1 = false) :
    detectLoop env ser (b :: bs) = detectLoop env (detectStep env ser b).2 bs := by
  simp only [detectLoop]
  rw [if_neg (by rw [h]; simp)]

/-- Claim C8: when no candidate rate in `common_baudrates` both opens and
answers the liveness probe successfully, `detect_baudrate` returns false and
the serial handle it leaves behind is closed, whatever the initial state of
the link was. -/
theorem c8_detect_exhausted_closed (env : ModemEnv) (ser : Option SerHandle)
    (h : ∀ b ∈ common_baudrates, env.openOk b = false ∨ env.probeOk b = false) :
    (detect_baudrate env ser).1 = false ∧ serClosed (detect_baudrate env ser).2 = true := by
  have hb : (115200 : Nat) ∈ common_baudrates := by simp [common_baudrates]
  have hst := detectStep_fail_closed env ser 115200 (h 115200 hb)
  show (detectLoop env ser common_baudrates).1 = false
    ∧ serClosed (detectLoop env ser common_baudrates).2 = true
  rw [show common_baudrates = 115200 :: [9600, 19200, 38400, 57600] from rfl,
    detectLoop_cons_fail env ser 115200 _ hst.1]
  refine detectLoop_fail env _ _ (fun b2 hb2 => h b2 ?_) hst.2
  simp only [common_baudrates]
  exact List.mem_cons_of_mem _ hb2

theorem c8_detect_exhausted_closed_witness :
    (detect_baudrate ⟨fun _ => true, fun _ => false⟩ (some ⟨115200, true⟩)).1 = false
      ∧ serClosed (detect_baudrate ⟨fun _ => true, fun _ => false⟩ (some ⟨115200, true⟩)).2 = true :=
  c8_detect_exhausted_closed _ _ (fun _ _ => Or.inr rfl)

lemma dropWhile_isSpace_eq_self (s : Str) (h : headNotSpace s = true) :
    s.dropWhile isSpace = s := by
  cases s with
  | nil => rfl
  | cons c t =>
    simp only [headNotSpace, Bool.not_eq_true'] at h
    simp [List.dropWhile_cons, h]

lemma pyStrip_eq_self (s : Str) (h1 : headNotSpace s = true) (h2 : lastNotSpace s = true) :
    pyStrip s = s := by
  unfold pyStrip
  rw [dropWhile_isSpace_eq_self s h1, dropWhile_isSpace_eq_self s.reverse h2,
    List.reverse_reverse]

lemma headNotSpace_append (x y : Str) (hx : x ≠ []) :
    headNotSpace (x ++ y) = headNotSpace x := by
  cases x with
  | nil => exact absurd rfl hx
  | cons c t => rfl

lemma lastNotSpace_append (x y : Str) (hy : y ≠ []) :
    lastNotSpace (x ++ y) = lastNotSpace y := by
  unfold lastNotSpace
  rw [List.reverse_append]
  exact headNotSpace_append y.reverse x.reverse
    (fun hr => hy (by rw [← List.reverse_reverse y, hr]; rfl))

lemma lastNotSpace_cons (c : Char) (s : Str) (hs : s ≠ []) :
    lastNotSpace (c :: s) = lastNotSpace s := by
  have h := lastNotSpace_append [c] s hs
  simpa using h

lemma dropWhile_length_le (p : Char → Bool) (s : Str) :
    (s.dropWhile p).length ≤ s.length := by
  induction s with
  | nil => simp
  | cons c t ih =>
    rw [List.dropWhile_cons]
    by_cases hc : p c = true
    · rw [if_pos hc]
      exact le_trans ih (by simp)
    · rw [if_neg hc]

lemma dropWhile_eq_self_of_length (p : Char → Bool) (s : Str)
    (h : (s.dropWhile p).length = s.length) : s.dropWhile p = s := by
  cases s with
  | nil => rfl
  | cons c t =>
    rw [List.dropWhile_cons] at h ⊢
    by_cases hc : p c = true
    · rw [if_pos hc] at h
      have hle := dropWhile_length_le p t
      simp only [List.length_cons] at h
      omega
    · rw [if_neg hc]

lemma headNotSpace_of_dropWhile_eq (s : Str) (h : s.dropWhile isSpace = s) :
    headNotSpace s = true := by
  cases s with
  | nil => rfl
  | cons c t =>
    rw [List.dropWhile_cons] at h
    by_cases hc : isSpace c = true
    · rw [if_pos hc] at h
      have hle := dropWhile_length_le isSpace t
      have := congrArg List.length h
      simp only [List.length_cons] at this
      omega
    · simp only [headNotSpace, Bool.not_eq_true']
      exact Bool.eq_false_iff.mpr hc

lemma pyStrip_eq_self_parts (s : Str) (h : pyStrip s = s) :
    s.dropWhile isSpace = s ∧ s.reverse.dropWhile isSpace = s.reverse := by
  have hlen1 : (s.dropWhile isSpace).length = s.length := by
    have ha := dropWhile_length_le isSpace s
    have hb : (pyStrip s).length ≤ (s.dropWhile isSpace).length := by
      unfold pyStrip
      rw [List.length_reverse]
      calc ((s.dropWhile isSpace).reverse.dropWhile isSpace).length
          ≤ (s.dropWhile isSpace).reverse.length := dropWhile_length_le _ _
        _ = (s.dropWhile isSpace).length := List.length_reverse _
    rw [h] at hb
    omega
  have h1 := dropWhile_eq_self_of_length isSpace s hlen1
  refine ⟨h1, ?_⟩
  have h2 : (s.reverse.dropWhile isSpace).reverse = s := by
    unfold pyStrip at h
    rw [h1] at h
    exact h
  have h3 := congrArg List.reverse h2
  rw [List.reverse_reverse] at h3
  exact h3

lemma headNotSpace_of_pyStrip_eq (s : Str) (h : pyStrip s = s) : headNotSpace s = true :=
  headNotSpace_of_dropWhile_eq s (pyStrip_eq_self_parts s h).1

lemma lastNotSpace_of_pyStrip_eq (s : Str) (h : pyStrip s = s) : lastNotSpace s = true :=
  headNotSpace_of_dropWhile_eq s.reverse (pyStrip_eq_self_parts s h).2

lemma pyStrip_cons_space (s : Str) : pyStrip (' ' :: s) = pyStrip s := by
  unfold pyStrip
  rw [List.dropWhile_cons]
  simp [isSpace]

lemma quoteField_ne_nil (t : Str) : quoteField t ≠ [] := by simp [quoteField]

lemma headNotSpace_quoteField (t : Str) : headNotSpace (quoteField t) = true := by
  show (!isSpace '"') = true
  decide

lemma lastNotSpace_quoteField (t : Str) : lastNotSpace (quoteField t) = true := by
  rw [show quoteField t = ('"' :: t) ++ ['"'] from rfl,
    lastNotSpace_append _ _ (by simp)]
  decide

lemma pyStrip_quoteField (t : Str) : pyStrip (quoteField t) = quoteField t :=
  pyStrip_eq_self _ (headNotSpace_quoteField t) (lastNotSpace_quoteField t)

lemma dropWhile_eq_self_of_all (p : Char → Bool) (s : Str) (h : ∀ c ∈ s, p c = false) :
    s.dropWhile p = s := by
  cases s with
  | nil => rfl
  | cons c t => simp [List.dropWhile_cons, h c (by simp)]

lemma stripQuotes_quoteField (t : Str) (h : ∀ c ∈ t, c ≠ '"') :
    stripQuotes (quoteField t) = t := by
  cases t with
  | nil => decide
  | cons c t' =>
    unfold stripQuotes
    have hc : c ≠ '"' := h c (by simp)
    have h1 : List.dropWhile (fun x => decide (x = '"')) (quoteField (c :: t'))
        = (c :: t') ++ ['"'] := by
      simp [quoteField, hc]
    have h2 : List.dropWhile (fun x => decide (x = '"')) ((c :: t').reverse)
        = (c :: t').reverse :=
      dropWhile_eq_self_of_all _ _ (fun x hx => by
        simpa using h x (List.mem_reverse.mp hx))
    rw [h1]
    have h3 : ((c :: t') ++ ['"']).reverse = '"' :: (c :: t').reverse := by
      rw [List.reverse_append]
      rfl
    rw [h3]
    rw [show List.dropWhile (fun x => decide (x = '"')) ('"' :: (c :: t').reverse)
        = List.dropWhile (fun x => decide (x = '"')) ((c :: t').reverse) from by
      rw [List.dropWhile_cons]
      simp]
    rw [h2, List.reverse_reverse]

lemma fieldOk_of_plain (f : Str) (h : ∀ c ∈ f, c ≠ '"' ∧ c ≠ ',') :
    ∀ q, fieldOk q f = true ∧ parityAfter q f = q := by
  induction f with
  | nil => intro q; exact ⟨rfl, rfl⟩
  | cons c f' ih =>
    intro q
    have hc := h c (by simp)
    have ih' := ih (fun x hx => h x (List.mem_cons_of_mem c hx))
    refine ⟨?_, ?_⟩
    · simp only [fieldOk, if_neg hc.1]
      rw [if_neg (by simp [hc.2])]
      exact (ih' q).1
    · simp only [parityAfter, if_neg hc.1]
      exact (ih' q).2

lemma quoted_field_ok (t : Str) (h : ∀ c ∈ t, c ≠ '"') :
    fieldOk false (quoteField t) = true ∧ parityAfter false (quoteField t) = false := by
  have aux : ∀ (u : Str), (∀ c ∈ u, c ≠ '"') →
      fieldOk true (u ++ ['"']) = true ∧ parityAfter true (u ++ ['"']) = false := by
    intro u
    induction u with
    | nil => intro _; exact ⟨rfl, rfl⟩
    | cons c u' ih =>
      intro hu
      have hc := hu c (by simp)
      have ih' := ih (fun x hx => hu x (List.mem_cons_of_mem c hx))
      refine ⟨?_, ?_⟩
      · show fieldOk true (c :: (u' ++ ['"'])) = true
        simp only [fieldOk, if_neg hc]
        rw [if_neg (by simp)]
        exact ih'.1
      · show parityAfter true (c :: (u' ++ ['"'])) = false
        simp only [parityAfter, if_neg hc]
        exact ih'.2
  have h2 := aux t h
  constructor
  · show fieldOk false ('"' :: (t ++ ['"'])) = true
    simp only [fieldOk, if_pos rfl]
    exact h2.1
  · show parityAfter false ('"' :: (t ++ ['"'])) = false
    simp only [parityAfter, if_pos rfl]
    exact h2.2

lemma foldl_splitStep_field (f : Str) :
    ∀ (ps : List Str) (cur : Str) (q : Bool), fieldOk q f = true →
    List.foldl splitStep ⟨ps, cur, q⟩ f = ⟨ps, cur ++ f, parityAfter q f⟩ := by
  induction f with
  | nil => intro ps cur q _; simp [parityAfter]
  | cons c f' ih =>
    intro ps cur q hok
    rw [List.foldl_cons]
    by_cases hc : c = '"'
    · subst hc
      have hok' : fieldOk (!q) f' = true := by
        simpa only [fieldOk, if_pos rfl] using hok
      have hstep : splitStep ⟨ps, cur, q⟩ '"' = ⟨ps, cur ++ ['"'], !q⟩ := by
        simp [splitStep]
      rw [hstep, ih ps (cur ++ ['"']) (!q) hok']
      simp [parityAfter]
    · by_cases hcm : c = ',' ∧ q = false
      · exfalso
        have : fieldOk q (c :: f') = false := by
          simp only [fieldOk, if_neg hc, if_pos hcm]
        rw [this] at hok
        exact Bool.false_ne_true hok
      · have hok' : fieldOk q f' = true := by
          simpa only [fieldOk, if_neg hc, if_neg hcm] using hok
        have hstep : splitStep ⟨ps, cur, q⟩ c = ⟨ps, cur ++ [c], q⟩ := by
          simp [splitStep, hc, hcm]
        rw [hstep, ih ps (cur ++ [c]) q hok']
        simp [parityAfter, hc]

lemma finishSplit_foldl_join (fields : List Str) :
    ∀ (ps : List Str) (cur : Str),
    (∀ f ∈ fields, fieldOk false f = true ∧ parityAfter false f = false) →
    finishSplit (List.foldl splitStep ⟨ps, cur, false⟩ (joinComma fields))
      = ps ++ fieldsOut (curCons cur fields) := by
  induction fields with
  | nil =>
    intro ps cur _
    simp only [joinComma, List.foldl_nil, finishSplit, emitCur, curCons, fieldsOut]
    by_cases hcur : cur = [] <;> simp [hcur]
  | cons f fs ih =>
    intro ps cur h
    have hf := h f (by simp)
    cases fs with
    | nil =>
      rw [show joinComma [f] = f from rfl,
        foldl_splitStep_field f ps cur false hf.1, hf.2]
      simp only [finishSplit, emitCur, curCons, fieldsOut]
      by_cases hcf : cur ++ f = [] <;> simp [hcf]
    | cons f2 fs2 =>
      rw [show joinComma (f :: f2 :: fs2) = f ++ ',' :: joinComma (f2 :: fs2) from rfl,
        List.foldl_append,
        foldl_splitStep_field f ps cur false hf.1, hf.2,
        List.foldl_cons]
      have hstep : splitStep ⟨ps, cur ++ f, false⟩ ','
          = ⟨emitCur ps (cur ++ f), [], false⟩ := by
        simp [splitStep, emitCur]
      rw [hstep, ih (emitCur ps (cur ++ f)) [] (fun g hg => h g (List.mem_cons_of_mem f hg))]
      simp only [curCons, emitCur, fieldsOut, List.nil_append]
      by_cases hcf : cur ++ f = [] <;>
        simp [hcf, List.filter_cons, List.append_assoc]

lemma splitHeader_joinComma (fields : List Str) (hne : fields ≠ [])
    (h : ∀ f ∈ fields, fieldOk false f = true ∧ parityAfter false f = false) :
    splitHeader (joinComma fields) = fieldsOut fields := by
  unfold splitHeader
  rw [finishSplit_foldl_join fields [] [] h]
  cases fields with
  | nil => exact absurd rfl hne
  | cons f fs => simp [curCons]

lemma drop_len_append (a b : List Char) : (a ++ b).drop a.length = b := by
  induction a with
  | nil => rfl
  | cons c t ih => simpa using ih

lemma isPrefixB_append_self (a b : Str) : isPrefixB a (a ++ b) = true := by
  induction a with
  | nil => rfl
  | cons c t ih => simp [isPrefixB, ih]

lemma parseLines_record (l c : Str) (rest : List Str)
    (hpre : isPrefixB cmglMarker (pyStrip l) = true)
    (hlen : 4 ≤ (splitHeader (pyStrip ((pyStrip l).drop cmglMarker.length))).length) :
    parseLines (l :: c :: rest)
      = mkRecord (splitHeader (pyStrip ((pyStrip l).drop cmglMarker.length))) (pyStrip c)
          :: parseLines rest := by
  simp [parseLines, hpre, hlen]

lemma parseLines_last (l : Str)
    (hpre : isPrefixB cmglMarker (pyStrip l) = true)
    (hlen : 4 ≤ (splitHeader (pyStrip ((pyStrip l).drop cmglMarker.length))).length) :
    parseLines [l]
      = [mkRecord (splitHeader (pyStrip ((pyStrip l).drop cmglMarker.length))) []] := by
  simp [parseLines, hpre, hlen]

lemma parseLines_skip (l : Str) (rest : List Str)
    (h : isPrefixB cmglMarker (pyStrip l) = false
       ∨ (splitHeader (pyStrip ((pyStrip l).drop cmglMarker.length))).length < 4) :
    parseLines (l :: rest) = parseLines rest := by
  rcases h with h | h
  · simp [parseLines, h]
  · have h2 : ¬(4 ≤ (splitHeader (pyStrip ((pyStrip l).drop cmglMarker.length))).length) := by
      omega
    by_cases hpre : isPrefixB cmglMarker (pyStrip l) = true
    · simp [parseLines, hpre, h2]
    · have h3 : isPrefixB cmglMarker (pyStrip l) = false := by
        cases hb : isPrefixB cmglMarker (pyStrip l)
        · rfl
        · exact absurd hb hpre
      simp [parseLines, h3]

/-- Claim C4: a `+CMGL:` header line whose quote-aware split yields fewer
than 4 fields produces no record and does not abort the parse — the loop
advances one line and the result is exactly the parse of the remaining
lines, so later well-formed groups are still returned. -/
theorem c4_short_header_skipped (l : Str) (rest : List Str)
    (hpre : isPrefixB cmglMarker (pyStrip l) = true)
    (hlen : (splitHeader (pyStrip ((pyStrip l).drop cmglMarker.length))).length < 4) :
    parseLines (l :: rest) = parseLines rest :=
  parseLines_skip l rest (Or.inr hlen)

theorem c4_short_header_skipped_witness :
    parseLines [("+CMGL: 0,\"REC\"".data), ("+CMGL: 1,\"A\",\"B\",\"C\"".data), ("hi".data)]
      = parseLines [("+CMGL: 1,\"A\",\"B\",\"C\"".data), ("hi".data)] :=
  c4_short_header_skipped _ _ (by decide) (by decide)

/-- Claim C10 (counterexample): the claim does not hold for every input
whose final line is a well-formed header.  Here the final line splits into 4
fields, so it is a well-formed header, yet the parse produces no record for
it: the preceding header's `i += 2` advance (read_sms.py line 141) consumes
the final line as that record's content, and the parse returns exactly one
record — for the first header, with the final header's text stored as its
content. -/
theorem c10_counterexample :
    4 ≤ (splitHeader (pyStrip ((pyStrip
          ("+CMGL: 1,\"A\",\"B\",\"C\"".data)).drop cmglMarker.length))).length
    ∧ parseLines [("+CMGL: 0,\"A\",\"B\",\"C\"".data), ("+CMGL: 1,\"A\",\"B\",\"C\"".data)]
        = [{ index := "0".data, status := "A".data, sender := "B".data,
             timestamp := "C".data, content := "+CMGL: 1,\"A\",\"B\",\"C\"".data }] := by
  decide

/-- Claim C10 (amended): when the final line is a well-formed header (the
split yields at least 4 fields) and the parse reaches that line as a header
— it is not consumed as the content line of a preceding group, i.e. the
loop's remaining input is exactly that line — the parser still produces a
record for it, with `content` equal to the empty string, rather than
failing or dropping it. -/
theorem c10_trailing_header_empty_content (l : Str)
    (hpre : isPrefixB cmglMarker (pyStrip l) = true)
    (hlen : 4 ≤ (splitHeader (pyStrip ((pyStrip l).drop cmglMarker.length))).length) :
    parseLines [l]
      = [mkRecord (splitHeader (pyStrip ((pyStrip l).drop cmglMarker.length))) []]
    ∧ (mkRecord (splitHeader (pyStrip ((pyStrip l).drop cmglMarker.length))) []).content
        = [] :=
  ⟨parseLines_last l hpre hlen, rfl⟩

theorem c10_trailing_header_empty_content_witness :
    parseLines [("+CMGL: 2,\"REC READ\",\"+555\",\"23/10/15,11:30:45+00\"".data)]
      = [mkRecord (splitHeader (pyStrip ((pyStrip
          ("+CMGL: 2,\"REC READ\",\"+555\",\"23/10/15,11:30:45+00\"".data)).drop
            cmglMarker.length))) []]
    ∧ (mkRecord (splitHeader (pyStrip ((pyStrip
          ("+CMGL: 2,\"REC READ\",\"+555\",\"23/10/15,11:30:45+00\"".data)).drop
            cmglMarker.length))) []).content = [] :=
  c10_trailing_header_empty_content _ (by decide) (by decide)

/-- Claim C5: the opportunistic UTF-16BE hex decode is attempted only when
the content line is non-empty, of even length and all-hex (the guard of
read_sms.py line 131); any other content passes through the display decode
unchanged; and in every case the content stored in the returned record is
the raw content line itself (the parser stores `lines[i+1].strip()`,
whitespace-trimmed but never decoded — the hypothesis `pyStrip c = c` says
the line carries no surrounding whitespace, which holds for all
engine-produced data since captured lines are stripped). -/
theorem c5_hex_decode_guard (l c : Str) (rest : List Str)
    (hpre : isPrefixB cmglMarker (pyStrip l) = true)
    (hlen : 4 ≤ (splitHeader (pyStrip ((pyStrip l).drop cmglMarker.length))).length)
    (hc : pyStrip c = c) :
    (hexGuard c = true ↔ (c ≠ [] ∧ c.length % 2 = 0 ∧ ∀ ch ∈ c, isHexDigitPy ch = true))
    ∧ (hexGuard c = false → tryDecodeDisplay c = c)
    ∧ parseLines (l :: c :: rest)
        = mkRecord (splitHeader (pyStrip ((pyStrip l).drop cmglMarker.length))) c
            :: parseLines rest
    ∧ (mkRecord (splitHeader (pyStrip ((pyStrip l).drop cmglMarker.length))) c).content
        = c := by
  refine ⟨?_, ?_, ?_, rfl⟩
  · simp [hexGuard, List.all_eq_true, List.isEmpty_iff, Bool.and_eq_true, beq_iff_eq,
      and_assoc]
  · intro hg
    simp [tryDecodeDisplay, hg]
  · rw [parseLines_record l c rest hpre hlen, hc]

theorem c5_hex_decode_guard_witness :
    (hexGuard ("00480065006C006C006F".data) = true
      ↔ (("00480065006C006C006F".data) ≠ []
         ∧ ("00480065006C006C006F".data).length % 2 = 0
         ∧ ∀ ch ∈ ("00480065006C006C006F".data), isHexDigitPy ch = true))
    ∧ (hexGuard ("00480065006C006C006F".data) = false
        → tryDecodeDisplay ("00480065006C006C006F".data) = "00480065006C006C006F".data)
    ∧ parseLines [("+CMGL: 3,\"REC READ\",\"+555\",\"ts\"".data),
          ("00480065006C006C006F".data)]
        = mkRecord (splitHeader (pyStrip ((pyStrip
            ("+CMGL: 3,\"REC READ\",\"+555\",\"ts\"".data)).drop cmglMarker.length)))
            ("00480065006C006C006F".data)
            :: parseLines []
    ∧ (mkRecord (splitHeader (pyStrip ((pyStrip
          ("+CMGL: 3,\"REC READ\",\"+555\",\"ts\"".data)).drop cmglMarker.length)))
          ("00480065006C006C006F".data)).content = "00480065006C006C006F".data :=
  c5_hex_decode_guard _ _ _ (by decide) (by decide) (by decide)

/-- Claim C3: a well-formed header whose quoted timestamp field contains an
embedded comma is split into exactly its four intended fields (the comma
inside the quotes is not a separator), and the record maps field 0 to
index, fields 1-3 with quotes stripped to status, sender and timestamp, and
the immediately following line, undecoded, to content. -/
theorem c3_quoted_comma_header (idx st sd ts1 ts2 content : Str) (rest : List Str)
    (hidx0 : idx ≠ [])
    (hidx1 : pyStrip idx = idx)
    (hidx2 : ∀ ch ∈ idx, ch ≠ '"' ∧ ch ≠ ',')
    (hst : ∀ ch ∈ st, ch ≠ '"')
    (hsd : ∀ ch ∈ sd, ch ≠ '"')
    (hts1 : ∀ ch ∈ ts1, ch ≠ '"')
    (hts2 : ∀ ch ∈ ts2, ch ≠ '"')
    (hcon : pyStrip content = content) :
    splitHeader (joinComma
        [idx, quoteField st, quoteField sd, quoteField (ts1 ++ ',' :: ts2)])
      = [idx, quoteField st, quoteField sd, quoteField (ts1 ++ ',' :: ts2)]
    ∧ parseLines
        (mkHeaderLine [idx, quoteField st, quoteField sd, quoteField (ts1 ++ ',' :: ts2)]
          :: content :: rest)
      = { index := idx, status := st, sender := sd, timestamp := ts1 ++ ',' :: ts2,
          content := content } :: parseLines rest := by
  have hts : ∀ ch ∈ ts1 ++ ',' :: ts2, ch ≠ '"' := by
    intro ch hch
    rcases List.mem_append.mp hch with h | h
    · exact hts1 ch h
    · rcases List.mem_cons.mp h with h | h
      · subst h; decide
      · exact hts2 ch h
  have hok : ∀ f ∈ [idx, quoteField st, quoteField sd, quoteField (ts1 ++ ',' :: ts2)],
      fieldOk false f = true ∧ parityAfter false f = false := by
    intro f hf
    rcases List.mem_cons.mp hf with h | hf
    · rw [h]
      exact fieldOk_of_plain idx hidx2 false
    rcases List.mem_cons.mp hf with h | hf
    · rw [h]
      exact quoted_field_ok st hst
    rcases List.mem_cons.mp hf with h | hf
    · rw [h]
      exact quoted_field_ok sd hsd
    rcases List.mem_cons.mp hf with h | hf
    · rw [h]
      exact quoted_field_ok (ts1 ++ ',' :: ts2) hts
    · exact absurd hf (List.not_mem_nil f)
  have hsplit := splitHeader_joinComma _ (by simp) hok
  have hie : idx.isEmpty = false := by
    cases idx with
    | nil => exact absurd rfl hidx0
    | cons _ _ => rfl
  have hqe : ∀ t : Str, (quoteField t).isEmpty = false := fun t => rfl
  have hfout : fieldsOut [idx, quoteField st, quoteField sd, quoteField (ts1 ++ ',' :: ts2)]
      = [idx, quoteField st, quoteField sd, quoteField (ts1 ++ ',' :: ts2)] := by
    simp [fieldsOut, List.filter_cons, hie, hqe, hidx1, pyStrip_quoteField]
  rw [hfout] at hsplit
  refine ⟨hsplit, ?_⟩
  have hjc : joinComma [idx, quoteField st, quoteField sd, quoteField (ts1 ++ ',' :: ts2)]
      = idx ++ ',' :: (quoteField st ++ ',' :: (quoteField sd
          ++ ',' :: quoteField (ts1 ++ ',' :: ts2))) := rfl
  have hheadj : headNotSpace (joinComma
      [idx, quoteField st, quoteField sd, quoteField (ts1 ++ ',' :: ts2)]) = true := by
    rw [hjc, headNotSpace_append idx _ hidx0]
    exact headNotSpace_of_pyStrip_eq idx hidx1
  have hlastj : lastNotSpace (joinComma
      [idx, quoteField st, quoteField sd, quoteField (ts1 ++ ',' :: ts2)]) = true := by
    rw [hjc, lastNotSpace_append idx _ (by simp),
      lastNotSpace_cons ',' _ (by simp [quoteField]),
      lastNotSpace_append (quoteField st) _ (by simp),
      lastNotSpace_cons ',' _ (by simp [quoteField]),
      lastNotSpace_append (quoteField sd) _ (by simp),
      lastNotSpace_cons ',' _ (quoteField_ne_nil _)]
    exact lastNotSpace_quoteField _
  have hj : pyStrip (joinComma
      [idx, quoteField st, quoteField sd, quoteField (ts1 ++ ',' :: ts2)])
      = joinComma [idx, quoteField st, quoteField sd, quoteField (ts1 ++ ',' :: ts2)] :=
    pyStrip_eq_self _ hheadj hlastj
  have hline : mkHeaderLine [idx, quoteField st, quoteField sd, quoteField (ts1 ++ ',' :: ts2)]
      = cmglMarker ++ ' ' :: joinComma
          [idx, quoteField st, quoteField sd, quoteField (ts1 ++ ',' :: ts2)] := rfl
  have hlineStrip : pyStrip (mkHeaderLine
      [idx, quoteField st, quoteField sd, quoteField (ts1 ++ ',' :: ts2)])
      = mkHeaderLine [idx, quoteField st, quoteField sd, quoteField (ts1 ++ ',' :: ts2)] := by
    apply pyStrip_eq_self
    · show (!isSpace '+') = true
      decide
    · rw [hline, lastNotSpace_append cmglMarker _ (by simp),
        lastNotSpace_cons ' ' _ (by rw [hjc]; simp [quoteField])]
      exact hlastj
  have hdrop : (pyStrip (mkHeaderLine
      [idx, quoteField st, quoteField sd, quoteField (ts1 ++ ',' :: ts2)])).drop
        cmglMarker.length
      = ' ' :: joinComma [idx, quoteField st, quoteField sd, quoteField (ts1 ++ ',' :: ts2)] := by
    rw [hlineStrip, hline]
    exact drop_len_append cmglMarker _
  have hpre : isPrefixB cmglMarker (pyStrip (mkHeaderLine
      [idx, quoteField st, quoteField sd, quoteField (ts1 ++ ',' :: ts2)])) = true := by
    rw [hlineStrip, hline]
    exact isPrefixB_append_self cmglMarker _
  have hparts : splitHeader (pyStrip ((pyStrip (mkHeaderLine
      [idx, quoteField st, quoteField sd, quoteField (ts1 ++ ',' :: ts2)])).drop
        cmglMarker.length))
      = [idx, quoteField st, quoteField sd, quoteField (ts1 ++ ',' :: ts2)] := by
    rw [hdrop, pyStrip_cons_space, hj, hsplit]
  rw [parseLines_record _ content rest hpre (by rw [hparts]; simp), hparts, hcon]
  have e1 : stripQuotes (pyStrip (quoteField st)) = st := by
    rw [pyStrip_quoteField]
    exact stripQuotes_quoteField st hst
  have e2 : stripQuotes (pyStrip (quoteField sd)) = sd := by
    rw [pyStrip_quoteField]
    exact stripQuotes_quoteField sd hsd
  have e3 : stripQuotes (pyStrip (quoteField (ts1 ++ ',' :: ts2))) = ts1 ++ ',' :: ts2 := by
    rw [pyStrip_quoteField]
    exact stripQuotes_quoteField _ hts
  simp [mkRecord, List.getD, hidx1, e1, e2, e3]

theorem c3_quoted_comma_header_witness :
    splitHeader (joinComma
        [("0".data), quoteField ("REC UNREAD".data), quoteField ("+1234567890".data),
         quoteField (("23/10/15".data) ++ ',' :: ("10:20:30+00".data))])
      = [("0".data), quoteField ("REC UNREAD".data), quoteField ("+1234567890".data),
         quoteField (("23/10/15".data) ++ ',' :: ("10:20:30+00".data))]
    ∧ parseLines
        (mkHeaderLine [("0".data), quoteField ("REC UNREAD".data),
            quoteField ("+1234567890".data),
            quoteField (("23/10/15".data) ++ ',' :: ("10:20:30+00".data))]
          :: ("Hello World".data) :: [])
      = { index := "0".data, status := "REC UNREAD".data, sender := "+1234567890".data,
          timestamp := ("23/10/15".data) ++ ',' :: ("10:20:30+00".data),
          content := "Hello World".data } :: parseLines [] :=
  c3_quoted_comma_header _ _ _ _ _ _ _ (by decide) (by decide) (by decide) (by decide)
    (by decide) (by decide) (by decide) (by decide)

lemma filter_length_le (p : Str → Bool) (l : List Str) :
    (l.filter p).length ≤ l.length := by
  induction l with
  | nil => simp
  | cons a l ih =>
    rw [List.filter_cons]
    by_cases hpa : p a = true
    · simp [hpa]
      omega
    · have hpa' : p a = false := by
        cases hq : p a
        · rfl
        · exact absurd hq hpa
      simp [hpa']
      omega

lemma filter_length_lt_of_mem_not (p : Str → Bool) (l : List Str) (x : Str)
    (hx : x ∈ l) (hpx : p x = false) :
    (l.filter p).length < l.length := by
  induction l with
  | nil => cases hx
  | cons a l ih =>
    rw [List.filter_cons]
    rcases List.mem_cons.mp hx with h | h
    · have hpa : p a = false := by rw [← h]; exact hpx
      simp [hpa]
      have := filter_length_le p l
      omega
    · by_cases hpa : p a = true
      · simp [hpa]
        exact ih h
      · have hpa' : p a = false := by
          cases hq : p a
          · rfl
          · exact absurd hq hpa
        simp [hpa']
        have := ih h
        omega

/-- Claim C9 (counterexample): a whitespace-only field is empty after
trimming yet is kept as an empty string rather than discarded — the code's
test `if current_part:` runs before `.strip()` — so the header
`+CMGL: 0, ,A,B`, which has an empty-after-trimming field among its first
four, is not skipped: it still yields 4 fields and produces a record whose
status is the empty string. -/
theorem c9_counterexample :
    splitHeader ("0, ,A,B".data) = [("0".data), ([] : Str), ("A".data), ("B".data)]
    ∧ parseLines [("+CMGL: 0, ,A,B".data), ("msg".data)]
        = [{ index := "0".data, status := [], sender := "A".data, timestamp := "B".data,
             content := "msg".data }] := by
  decide

/-- Claim C9 (amended): a raw field that is empty before trimming — as
produced by consecutive commas or a trailing comma outside quotes — is
discarded rather than kept as an empty string, shifting later fields, so a
header whose four raw fields include such an empty field splits into fewer
than 4 fields and is skipped without a record.  (A whitespace-only field is
instead kept, as the empty string.) -/
theorem c9_empty_field_dropped (fields : List Str) (rest : List Str)
    (h1 : fields ≠ [])
    (h2 : ∀ f ∈ fields, fieldOk false f = true ∧ parityAfter false f = false)
    (h3 : fields.length = 4)
    (h4 : ∃ f ∈ fields, f = [])
    (h5 : pyStrip (mkHeaderLine fields) = mkHeaderLine fields)
    (h6 : pyStrip (joinComma fields) = joinComma fields) :
    splitHeader (joinComma fields) = fieldsOut fields
    ∧ (splitHeader (joinComma fields)).length < 4
    ∧ parseLines (mkHeaderLine fields :: rest) = parseLines rest := by
  have hsplit := splitHeader_joinComma fields h1 h2
  have hlt : (fieldsOut fields).length < 4 := by
    rw [← h3]
    unfold fieldsOut
    rw [List.length_map]
    obtain ⟨f0, hf0mem, hf0⟩ := h4
    exact filter_length_lt_of_mem_not _ fields f0 hf0mem (by rw [hf0]; rfl)
  refine ⟨hsplit, by rw [hsplit]; exact hlt, ?_⟩
  apply parseLines_skip
  right
  have hdrop : (pyStrip (mkHeaderLine fields)).drop cmglMarker.length
      = ' ' :: joinComma fields := by
    rw [h5]
    exact drop_len_append cmglMarker _
  rw [hdrop, pyStrip_cons_space, h6, hsplit]
  exact hlt

theorem c9_empty_field_dropped_witness :
    splitHeader (joinComma [("0".data), ([] : Str), ("A".data), ("B".data)])
      = fieldsOut [("0".data), ([] : Str), ("A".data), ("B".data)]
    ∧ (splitHeader (joinComma [("0".data), ([] : Str), ("A".data), ("B".data)])).length < 4
    ∧ parseLines (mkHeaderLine [("0".data), ([] : Str), ("A".data), ("B".data)] :: [])
        = parseLines [] :=
  c9_empty_field_dropped _ _ (by decide) (by decide) (by decide)
    ⟨[], by decide, rfl⟩ (by decide) (by decide)

lemma splitOnNl_no_nl (l : Str) (h : ∀ ch ∈ l, ch ≠ '\n') : splitOnNl l = [l] := by
  induction l with
  | nil => rfl
  | cons c cs ih =>
    have hc : c ≠ '\n' := h c (by simp)
    simp [splitOnNl, hc, ih (fun ch hch => h ch (List.mem_cons_of_mem c hch))]

lemma splitOnNl_append_nl (a b : Str) (h : ∀ ch ∈ a, ch ≠ '\n') :
    splitOnNl (a ++ '\n' :: b) = a :: splitOnNl b := by
  induction a with
  | nil => simp [splitOnNl]
  | cons c cs ih =>
    have hc : c ≠ '\n' := h c (by simp)
    simp [splitOnNl, hc, ih (fun ch hch => h ch (List.mem_cons_of_mem c hch))]

/-- Splitting the joined engine data recovers the original lines, so every
theorem about `parseLines` transfers to `parse_sms_messages` applied to the
newline-joined data of a transaction (captured lines never contain a
newline, since they are produced by `readline` and stripped). -/
lemma parse_sms_messages_joinLines (ls : List Str) (hne : ls ≠ [])
    (h : ∀ l ∈ ls, ∀ ch ∈ l, ch ≠ '\n') :
    parse_sms_messages (joinLines ls) = parseLines ls := by
  unfold parse_sms_messages
  have hsplit : splitOnNl (joinLines ls) = ls := by
    induction ls with
    | nil => exact absurd rfl hne
    | cons l ls2 ih =>
      cases ls2 with
      | nil => exact splitOnNl_no_nl l (h l (by simp))
      | cons l2 ls3 =>
        rw [show joinLines (l :: l2 :: ls3) = l ++ '\n' :: joinLines (l2 :: ls3) from rfl,
          splitOnNl_append_nl l _ (h l (by simp)),
          ih (by simp) (fun g hg => h g (List.mem_cons_of_mem l hg))]
  rw [hsplit]
